import Mathlib

/-!
Verification of the per-contig end-extension engine of the ONTscaffolder
(eagler) repository against its natural-language specification.

The development shallowly embeds the current generation of the source
(`scaffolder.cpp` of the eagler snapshot, together with the margin macros
`INNER_MARGIN = 5`, `OUTER_MARGIN = 15`, `MIN_COVERAGE = 5` and the default
`max_ext_length = 1000`):

* the overhang extractor `find_possible_extensions`,
* the realigning consensus walker `get_extension_mv_realign`,
* the refinement loop `extend_contig` (with the external aligner abstracted
  as an oracle that produces the alignment records read back from the SAM
  file of each `index`/`align` invocation).

The headers `bases.h` and `extension.h` are not part of the provided
sources; the histogram type `BasesCounter` with `count_bases`, and the
cursor arithmetic of `Extension::do_operation`, are modelled from the
specification (see the individual doc comments).  C++ strings are modelled
as `List Char`; `std::string::operator[]` at an index equal to the size
yields the null character, which `charAt` reproduces via `getD` with
`Char.ofNat 0`.  `size_t` subtraction in the walker's drop guard is
modelled exactly, including unsigned wrap-around (`sizetSub2`).
-/

set_option maxRecDepth 10000

namespace Scaffolder

/-- Margin below which a dangling read is used directly
(`#define INNER_MARGIN 5`, scaffolder.cpp). -/
def INNER_MARGIN : Nat := 5

/-- Margin below which a dangling read is kept but flagged for realignment
(`#define OUTER_MARGIN 15`, scaffolder.cpp). -/
def OUTER_MARGIN : Nat := 15

/-- Minimum coverage for the walker to continue
(`#define MIN_COVERAGE 5`, scaffolder.cpp, eagler snapshot). -/
def MIN_COVERAGE : Nat := 5

/-- Default upper bound for one-side extensions
(`int max_ext_length = 1000`, scaffolder.cpp). -/
def MAX_EXT : Nat := 1000

/-- Modulus of the C++ `size_t` type (64-bit build), `2 ^ 64`. -/
def SIZE_T_MOD : Nat := 18446744073709551616

/-- Modelled from the spec: the `Extension` class of the missing
`extension.h` header.  Per the spec's data model an overhang carries a
read id, its oriented overhang sequence, a walker cursor `curr_pos`
(default 0) and a `dropped` flag. -/
structure Ext where
  readId : Nat
  seq : List Char
  pos : Nat
  dropped : Bool
deriving DecidableEq, Repr

/-- Character of a C++ `std::string` at index `i`: within range it is the
stored character, at `i = size` the null character (the C++11 guarantee
for `operator[]`); larger indices are out of bounds in C++ and also mapped
to the null character here. -/
def charAt (s : List Char) (i : Nat) : Char := s.getD i (Char.ofNat 0)

/-- Nucleotide to histogram index, the mapping documented for
`utility::base_to_idx`: A, T, G, C become 0, 1, 2, 3; any other character
is invalid and never contributes to a count. -/
def baseToIdx (c : Char) : Option Nat :=
  if c = 'A' then some 0
  else if c = 'T' then some 1
  else if c = 'G' then some 2
  else if c = 'C' then some 3
  else none

/-- Histogram index to nucleotide, the mapping documented for
`utility::idx_to_base` (0, 1, 2, 3 become A, T, G, C). -/
def idxToBase (i : Nat) : Char :=
  if i = 0 then 'A'
  else if i = 1 then 'T'
  else if i = 2 then 'G'
  else if i = 3 then 'C'
  else 'N'

/-- Modelled from the spec: the `BasesCounter` histogram of the missing
`bases.h` header, with one bin per base. -/
structure BasesCounter where
  c0 : Nat
  c1 : Nat
  c2 : Nat
  c3 : Nat
deriving DecidableEq, Repr

/-- Modelled from the spec: `coverage` is the sum of the four bin counts. -/
def BasesCounter.coverage (b : BasesCounter) : Nat := b.c0 + b.c1 + b.c2 + b.c3

/-- Modelled from the spec: `max_idx` is the argmax bin, ties broken by
the lowest index. -/
def BasesCounter.maxIdx (b : BasesCounter) : Nat :=
  let m := max (max b.c0 b.c1) (max b.c2 b.c3)
  if b.c0 = m then 0 else if b.c1 = m then 1 else if b.c2 = m then 2 else 3

/-- Modelled from the spec: the per-overhang contribution inside
`bases::count_bases`.  A dropped overhang contributes nothing; a live one
is sampled at `curr_pos + offset` provided its current base passes the
eligibility filter; invalid characters contribute to no bin. -/
def contribIdx (eligible : Char → Bool) (offset : Nat) (e : Ext) : Option Nat :=
  if e.dropped then none
  else if eligible (charAt e.seq e.pos) then baseToIdx (charAt e.seq (e.pos + offset))
  else none

/-- Modelled from the spec: `bases::count_bases` of the missing `bases.h`,
accumulating a four-bin histogram over the overhang list.  The default
C++ call uses the always-true filter with offset 0; the look-ahead call
filters by the current base and uses offset 1. -/
def countBases (exts : List Ext) (eligible : Char → Bool) (offset : Nat) : BasesCounter :=
  { c0 := exts.countP (fun e => contribIdx eligible offset e == some 0)
    c1 := exts.countP (fun e => contribIdx eligible offset e == some 1)
    c2 := exts.countP (fun e => contribIdx eligible offset e == some 2)
    c3 := exts.countP (fun e => contribIdx eligible offset e == some 3) }

/-- The value of the C++ expression `seq.length() - 2` where `length()`
is `size_t`: subtraction wraps modulo `2 ^ 64`, so lengths 0 and 1
produce a huge value instead of 0. -/
def sizetSub2 (n : Nat) : Nat := (n + (SIZE_T_MOD - 2)) % SIZE_T_MOD

/-- One per-overhang realignment step of `get_extension_mv_realign`
(scaffolder.cpp): dropped overhangs are skipped; an overhang whose cursor
satisfies `curr_pos >= seq.length() - 2` (in `size_t` arithmetic) is
dropped; otherwise the first matching rule fires.  The branch conditions
are from the source; the cursor effects of `do_operation`
(match `+1`, deletion `0`, mismatch `+1`, insertion `+2`) are modelled
from the spec, `extension.h` being absent. -/
def realignExt (outputBase nextMv : Char) (e : Ext) : Ext :=
  if e.dropped then e
  else if sizetSub2 e.seq.length ≤ e.pos then { e with dropped := true }
  else
    let c := charAt e.seq e.pos
    let n := charAt e.seq (e.pos + 1)
    if c = outputBase then { e with pos := e.pos + 1 }
    else if c = nextMv then e
    else if n = nextMv then { e with pos := e.pos + 1 }
    else if n = outputBase then { e with pos := e.pos + 2 }
    else { e with dropped := true }

/-- The walker's step histogram `bases = count_bases(extensions)`. -/
def curBases (exts : List Ext) : BasesCounter := countBases exts (fun _ => true) 0

/-- The walker's tentative output base `idx_to_base(bases.max_idx)`. -/
def obOf (exts : List Ext) : Char := idxToBase (curBases exts).maxIdx

/-- The walker's look-ahead histogram
`count_bases(extensions, is_read_eligible, 1)` where eligibility means
the current base equals the tentative output base. -/
def nextBases (exts : List Ext) : BasesCounter :=
  countBases exts (fun c => c == obOf exts) 1

/-- The walker's next majority base `idx_to_base(next_bases.max_idx)`. -/
def nmOf (exts : List Ext) : Char := idxToBase (nextBases exts).maxIdx

/-- The state of the overhang list after one committed walker step:
every overhang is updated in place by the realignment rules. -/
def stepOnce (exts : List Ext) : List Ext :=
  exts.map (realignExt (obOf exts) (nmOf exts))

/-- The realigning consensus walker `get_extension_mv_realign`
(scaffolder.cpp, eagler snapshot), with explicit fuel for the unbounded
`for (;;)` loop; `none` means the fuel ran out before the loop broke, so
any `some` result is the value computed by the C++ loop.  Per step: if the
coverage of the current histogram is below `MIN_COVERAGE`, stop; otherwise
compute the look-ahead histogram over reads agreeing with the tentative
base; if its coverage is below `0.6 * MIN_COVERAGE`, stop WITHOUT emitting
(the integer test `10 * cov < 6 * MIN_COVERAGE` agrees with the C++
double comparison `cov < 0.6 * MIN_COVERAGE` at `MIN_COVERAGE = 5`, where
`0.6 * 5` rounds to exactly `3.0`); otherwise emit the tentative base and
realign every overhang. -/
def walkAux : Nat → List Ext → Option (List Char × List Ext)
  | 0, _ => none
  | fuel + 1, exts =>
    if MIN_COVERAGE ≤ (curBases exts).coverage then
      if 10 * (nextBases exts).coverage < 6 * MIN_COVERAGE then
        some ([], exts)
      else
        match walkAux fuel (stepOnce exts) with
        | none => none
        | some (rest, final) => some (obOf exts :: rest, final)
    else
      some ([], exts)

/-- The overhang-list state at the start of walker step `n`, assuming all
earlier steps committed. -/
def stepIter (exts : List Ext) : Nat → List Ext
  | 0 => exts
  | n + 1 => stepIter (stepOnce exts) n

/-- One CIGAR run: an operation character and its count
(seqan's `CigarElement`). -/
structure CigarElem where
  op : Char
  cnt : Nat
deriving DecidableEq, Repr

/-- One alignment record, the fields of seqan's `BamAlignmentRecord` read
by the extractor: query name, FLAG, 0-based position, CIGAR and the read
sequence.  `beginPos` is a `Nat` since only mapped records (which carry a
non-negative position) pass the extractor's `UNMAPPED` test. -/
structure BamRecord where
  qName : String
  flag : Nat
  beginPos : Nat
  cigar : List CigarElem
  seq : List Char
deriving DecidableEq, Repr

/-- CIGAR operations that consume read bases
(`utility::contributes_to_seq_len`): M, I, S, X, =. -/
def contributesToSeqLen (c : Char) : Bool :=
  c == 'M' || c == 'I' || c == 'S' || c == 'X' || c == '='

/-- CIGAR operations that consume reference bases
(`utility::contributes_to_contig_len`): M, D, X, =. -/
def contributesToContigLen (c : Char) : Bool :=
  c == 'M' || c == 'D' || c == 'X' || c == '='

/-- `used_read_size` before the trailing clip is subtracted: the sum of
counts of read-consuming CIGAR operations. -/
def usedReadSizeFull (r : BamRecord) : Nat :=
  r.cigar.foldl (fun a e => if contributesToSeqLen e.op then a + e.cnt else a) 0

/-- `used_contig_size`: the sum of counts of reference-consuming CIGAR
operations. -/
def usedContigSize (r : BamRecord) : Nat :=
  r.cigar.foldl (fun a e => if contributesToContigLen e.op then a + e.cnt else a) 0

/-- The right margin `contig_len - (beginPos + used_contig_size)`
computed in exact integer arithmetic; the model covers records whose
alignment lies inside the contig, for which the C++ mixed
signed/unsigned expression yields the same value. -/
def marginOf (contigLen : Nat) (r : BamRecord) : Int :=
  (contigLen : Int) - ((r.beginPos : Int) + (usedContigSize r : Int))

/-- Left-candidacy branch of `find_possible_extensions` (scaffolder.cpp)
for one record: requires the `UNMAPPED` bit clear, a leading soft clip,
`beginPos < OUTER_MARGIN` and `cigar[0].count > beginPos`.  Below
`INNER_MARGIN` the stored overhang is `seq.substr(start, max_ext_length)`
reversed, with `start = 0` when `len <= max_ext_length` and
`start = len - max_ext_length` otherwise; at or above `INNER_MARGIN` a
dropped placeholder with an empty sequence is stored.  An empty CIGAR
(undefined behaviour in C++) is mapped to a failing head operation. -/
def extractLeft (maxExt : Nat) (table : String → Nat) (r : BamRecord) : Option Ext :=
  let head := r.cigar.headD ⟨'*', 0⟩
  if r.flag &&& 4 == 0 && head.op == 'S' && r.beginPos < OUTER_MARGIN
      && r.beginPos < head.cnt then
    let len := head.cnt - r.beginPos
    if r.beginPos < INNER_MARGIN then
      let start := if len ≤ maxExt then 0 else len - maxExt
      some ⟨table r.qName, ((r.seq.drop start).take maxExt).reverse, 0, false⟩
    else
      some ⟨table r.qName, [], 0, true⟩
  else
    none

/-- Right-candidacy branch of `find_possible_extensions` (scaffolder.cpp)
for one record: requires the `UNMAPPED` bit clear and a trailing soft
clip; records with `margin > OUTER_MARGIN` or `len <= 0` are skipped;
otherwise the overhang is `seq.substr(used_read_size + (tail - len),
max_ext_length)`, stored live when `margin <= INNER_MARGIN` and as a
dropped empty placeholder otherwise. -/
def extractRight (maxExt : Nat) (table : String → Nat) (contigLen : Nat)
    (r : BamRecord) : Option Ext :=
  let last := r.cigar.getLastD ⟨'*', 0⟩
  if r.flag &&& 4 == 0 && last.op == 'S' then
    let tailLen := last.cnt
    let usedRead := usedReadSizeFull r - tailLen
    let margin := marginOf contigLen r
    let len : Int := (tailLen : Int) - margin
    if margin > (OUTER_MARGIN : Int) then none
    else if len ≤ 0 then none
    else
      let start := ((usedRead : Int) + ((tailLen : Int) - len)).toNat
      let extension := (r.seq.drop start).take maxExt
      let drop := margin > (INNER_MARGIN : Int)
      some ⟨table r.qName, if drop then [] else extension, 0, drop⟩
  else
    none

/-- `find_possible_extensions` (scaffolder.cpp): iterates over the
records, appending each qualifying left candidate to the left list and
each qualifying right candidate to the right list.  The two initial lists
model the vectors passed by pointer, which the function only extends via
`emplace_back`. -/
def findPossibleExtensions (maxExt : Nat) (table : String → Nat) (contigLen : Nat)
    (records : List BamRecord) (left0 right0 : List Ext) : List Ext × List Ext :=
  records.foldl
    (fun acc r =>
      (acc.1 ++ (extractLeft maxExt table r).toList,
       acc.2 ++ (extractRight maxExt table contigLen r).toList))
    (left0, right0)

/-- The data returned by `extend_contig` (the `Contig` constructor
arguments), together with the number of external-aligner invocations the
run performed. -/
structure ECResult where
  contig : List Char
  totalLeft : Nat
  totalRight : Nat
  alignerCalls : Nat
deriving DecidableEq, Repr

/-- The loop state of `extend_contig`: the growing contig, the two
overhang lists, the `should_ext_left` / `should_ext_right` flags, the two
accumulated totals and the number of aligner invocations so far. -/
structure ECState where
  contig : List Char
  left : List Ext
  right : List Ext
  shouldLeft : Bool
  shouldRight : Bool
  totalLeft : Nat
  totalRight : Nat
  alignerCalls : Nat
deriving DecidableEq, Repr

/-- The result read off a loop state when the `while` condition fails. -/
def ecResultOf (s : ECState) : ECResult :=
  ⟨s.contig, s.totalLeft, s.totalRight, s.alignerCalls⟩

/-- One iteration of the `extend_contig` refinement loop
(scaffolder.cpp, eagler snapshot).  Runs the walker on each side whose
flag is set, updates flags and totals, applies the
`total < max_ext_length` clamp, extends the contig, partitions each list
into survivors and dropouts, and either breaks (`Sum.inl`, before any
aligner call when nothing was dropped, or after the coverage-size test)
or produces the next loop state (`Sum.inr`).  The external
`index`/`align`/`read_sam` round trip is the oracle, indexed by the
invocation counter; file I/O carries no information the model needs. -/
def ecIterate (walkFuel : Nat) (oracle : Nat → List BamRecord) (table : String → Nat)
    (s : ECState) : Option (Sum ECResult ECState) :=
  match (if s.shouldLeft then walkAux walkFuel s.left else some ([], s.left)) with
  | none => none
  | some (lext, left1) =>
    match (if s.shouldRight then walkAux walkFuel s.right else some ([], s.right)) with
    | none => none
    | some (rext, right1) =>
      let shouldL1 := if s.shouldLeft then !lext.isEmpty else s.shouldLeft
      let totalL1 := if s.shouldLeft then s.totalLeft + lext.length else s.totalLeft
      let shouldR1 := if s.shouldRight then !rext.isEmpty else s.shouldRight
      let totalR1 := if s.shouldRight then s.totalRight + rext.length else s.totalRight
      let shouldL2 := shouldL1 && decide (totalL1 < MAX_EXT)
      let shouldR2 := shouldR1 && decide (totalR1 < MAX_EXT)
      let contig1 := lext.reverse ++ s.contig ++ rext
      let anyDropped := left1.any (fun e => e.dropped) || right1.any (fun e => e.dropped)
      if !anyDropped then
        some (Sum.inl ⟨contig1, totalL1, totalR1, s.alignerCalls⟩)
      else
        let survivorsL := left1.filter (fun e => !e.dropped)
        let survivorsR := right1.filter (fun e => !e.dropped)
        let records := oracle s.alignerCalls
        let calls1 := s.alignerCalls + 1
        let seeded := findPossibleExtensions MAX_EXT table contig1.length records
          survivorsL survivorsR
        if seeded.1.length < MIN_COVERAGE && seeded.2.length < MIN_COVERAGE then
          some (Sum.inl ⟨contig1, totalL1, totalR1, calls1⟩)
        else
          some (Sum.inr ⟨contig1, seeded.1, seeded.2, shouldL2, shouldR2,
            totalL1, totalR1, calls1⟩)

/-- The `while (should_ext_left || should_ext_right)` loop of
`extend_contig`, with fuel for the unbounded loop. -/
def ecLoop (walkFuel : Nat) (oracle : Nat → List BamRecord) (table : String → Nat) :
    Nat → ECState → Option ECResult
  | 0, _ => none
  | fuel + 1, s =>
    if s.shouldLeft || s.shouldRight then
      match ecIterate walkFuel oracle table s with
      | none => none
      | some (Sum.inl res) => some res
      | some (Sum.inr s1) => ecLoop walkFuel oracle table fuel s1
    else
      some (ecResultOf s)

/-- `extend_contig` (scaffolder.cpp, eagler snapshot): seed the overhang
lists from the initial alignment records, then run the refinement loop
with both side flags set and zero totals. -/
def extendContigModel (walkFuel loopFuel : Nat) (oracle : Nat → List BamRecord)
    (table : String → Nat) (alnRecords : List BamRecord) (contig : List Char) :
    Option ECResult :=
  let seeded := findPossibleExtensions MAX_EXT table contig.length alnRecords [] []
  ecLoop walkFuel oracle table loopFuel ⟨contig, seeded.1, seeded.2, true, true, 0, 0, 0⟩

/-! ## Concrete inputs used by the claim theorems, witnesses and counterexamples -/

/-- Five identical live overhangs `"ACG"`; the walker emits `"AC"`. -/
def c1exts : List Ext :=
  [⟨0, "ACG".toList, 0, false⟩, ⟨1, "ACG".toList, 0, false⟩, ⟨2, "ACG".toList, 0, false⟩,
   ⟨3, "ACG".toList, 0, false⟩, ⟨4, "ACG".toList, 0, false⟩]

/-- The final overhang state of the walker run on `c1exts`: all five
overhangs drop at step 2 with their cursors at 1. -/
def c1fin : List Ext :=
  [⟨0, "ACG".toList, 1, true⟩, ⟨1, "ACG".toList, 1, true⟩, ⟨2, "ACG".toList, 1, true⟩,
   ⟨3, "ACG".toList, 1, true⟩, ⟨4, "ACG".toList, 1, true⟩]

/-- Five live overhangs `"AGG"` plus one live overhang `"TAG"`: at step 0
the majority emits `A` with next majority `G`, and the `"TAG"` overhang
takes the insertion branch, jumping from cursor 0 to cursor 2. -/
def c2exts : List Ext :=
  [⟨0, "AGG".toList, 0, false⟩, ⟨1, "AGG".toList, 0, false⟩, ⟨2, "AGG".toList, 0, false⟩,
   ⟨3, "AGG".toList, 0, false⟩, ⟨4, "AGG".toList, 0, false⟩, ⟨5, "TAG".toList, 0, false⟩]

/-- A live two-base overhang at cursor 0, used to witness the amended
per-step drop rule. -/
def c2we : Ext := ⟨0, "AG".toList, 0, false⟩

/-- Read-name table mapping every name to id 0. -/
def idTable0 : String → Nat := fun _ => 0

/-- Left-dangling record for claim C3: leading clip 5 at `beginPos` 2, so
`len = 3`, on a read of 8 bases. -/
def c3rec : BamRecord := ⟨"x", 0, 2, [⟨'S', 5⟩, ⟨'M', 3⟩], "ACGTACGT".toList⟩

/-- Read-name table for the five reads `r0` … `r4`. -/
def c4table : String → Nat := fun n =>
  if n == "r0" then 0 else if n == "r1" then 1 else if n == "r2" then 2
  else if n == "r3" then 3 else 4

/-- Five left-dangling records (leading clip 1 at position 0, reads of 4
bases): each extractor pass yields five live left overhangs `"AAAA"`, and
each walker run on them emits three bases before dropping all five. -/
def c4records : List BamRecord :=
  [⟨"r0", 0, 0, [⟨'S', 1⟩, ⟨'M', 3⟩], "AAAA".toList⟩,
   ⟨"r1", 0, 0, [⟨'S', 1⟩, ⟨'M', 3⟩], "AAAA".toList⟩,
   ⟨"r2", 0, 0, [⟨'S', 1⟩, ⟨'M', 3⟩], "AAAA".toList⟩,
   ⟨"r3", 0, 0, [⟨'S', 1⟩, ⟨'M', 3⟩], "AAAA".toList⟩,
   ⟨"r4", 0, 0, [⟨'S', 1⟩, ⟨'M', 3⟩], "AAAA".toList⟩]

/-- Aligner oracle that re-maps the five reads identically on every
invocation. -/
def c4oracle : Nat → List BamRecord := fun _ => c4records

/-- Initial contig for the claim C4 run. -/
def c4contig : List Char := "ACGTACGTAC".toList

/-- A loop state holding a single dropped placeholder overhang, used to
witness the clamp invariant on the state produced by one iteration. -/
def c4wSt : ECState := ⟨[], [⟨0, [], 0, true⟩], [], false, false, 0, 0, 0⟩

/-- The state `ecIterate` produces from `c4wSt` with the `c4oracle`
records: the placeholder is scheduled for realignment and five fresh live
overhangs are extracted. -/
def c4wSt1 : ECState :=
  ⟨[], [⟨0, "AAAA".toList, 0, false⟩, ⟨1, "AAAA".toList, 0, false⟩,
        ⟨2, "AAAA".toList, 0, false⟩, ⟨3, "AAAA".toList, 0, false⟩,
        ⟨4, "AAAA".toList, 0, false⟩], [], false, false, 0, 0, 1⟩

/-- Read-name table mapping every name to id 7. -/
def c5table : String → Nat := fun _ => 7

/-- A left-qualifying record; listing it twice makes the same read id
appear twice in the left overhang list. -/
def c5rec : BamRecord := ⟨"d", 0, 0, [⟨'S', 2⟩, ⟨'M', 3⟩], "ACGTA".toList⟩

/-- Two left-qualifying records with distinct names, used with the
`String.length` table (ids 1 and 2) to witness the amended claim C5. -/
def c5recA : BamRecord := ⟨"a", 0, 0, [⟨'S', 2⟩, ⟨'M', 3⟩], "ACGTA".toList⟩

/-- Second record for the amended claim C5 witness. -/
def c5recB : BamRecord := ⟨"bb", 0, 0, [⟨'S', 2⟩, ⟨'M', 3⟩], "TTGCA".toList⟩

/-- A record with `beginPos` exactly `OUTER_MARGIN` and a leading soft
clip larger than `beginPos`. -/
def c6leftRec : BamRecord := ⟨"z", 0, 15, [⟨'S', 20⟩, ⟨'M', 5⟩], List.replicate 25 'A'⟩

/-- A record whose right margin against a 25-base contig is exactly
`OUTER_MARGIN` (trailing clip 20, `used_contig` 10 at position 0). -/
def c6rightRec : BamRecord := ⟨"w", 0, 0, [⟨'M', 10⟩, ⟨'S', 20⟩], List.replicate 30 'A'⟩

/-- A sixth live overhang, prepended instead of appended to `c1exts` to
form a permuted walker input. -/
def c7f : Ext := ⟨5, "TAG".toList, 0, false⟩

/-- Walker input: five `"ACG"` overhangs then `c7f`. -/
def c7l1 : List Ext := c1exts ++ [c7f]

/-- The same six overhangs with `c7f` moved to the front. -/
def c7l2 : List Ext := c7f :: c1exts

/-- Initial contig for the claim C8 witness. -/
def c8contig : List Char := "ACGT".toList

/-- A record qualifying on both sides at once: leading clip 3, trailing
clip 5, aligned over the whole 4-base contig. -/
def c9rec : BamRecord := ⟨"y", 0, 0, [⟨'S', 3⟩, ⟨'M', 4⟩, ⟨'S', 5⟩], "ACGTACGTACGT".toList⟩

/-! ## Shared helper lemmas -/

/-- Unfolding step of the extractor fold: processing one record appends
its candidates to the seeds. -/
theorem findPossibleExtensions_cons (maxExt : Nat) (table : String → Nat) (contigLen : Nat)
    (r : BamRecord) (rs : List BamRecord) (left0 right0 : List Ext) :
    findPossibleExtensions maxExt table contigLen (r :: rs) left0 right0 =
      findPossibleExtensions maxExt table contigLen rs
        (left0 ++ (extractLeft maxExt table r).toList)
        (right0 ++ (extractRight maxExt table contigLen r).toList) := rfl

/-- The extractor only appends: its result is the seed lists followed by
what it would produce from empty seeds. -/
theorem findPossibleExtensions_seed (maxExt : Nat) (table : String → Nat) (contigLen : Nat)
    (records : List BamRecord) (left0 right0 : List Ext) :
    findPossibleExtensions maxExt table contigLen records left0 right0 =
      (left0 ++ (findPossibleExtensions maxExt table contigLen records [] []).1,
       right0 ++ (findPossibleExtensions maxExt table contigLen records [] []).2) := by
  induction records generalizing left0 right0 with
  | nil => simp [findPossibleExtensions]
  | cons r rs ih =>
    rw [findPossibleExtensions_cons, findPossibleExtensions_cons,
      ih (left0 ++ (extractLeft maxExt table r).toList)
        (right0 ++ (extractRight maxExt table contigLen r).toList),
      ih (([] : List Ext) ++ (extractLeft maxExt table r).toList)
        (([] : List Ext) ++ (extractRight maxExt table contigLen r).toList)]
    simp [List.append_assoc]

/-- Whenever the left-candidacy branch stores an overhang, its read id is
the table entry for the record name. -/
theorem extractLeft_readId (maxExt : Nat) (table : String → Nat) (r : BamRecord) (e : Ext)
    (h : extractLeft maxExt table r = some e) : e.readId = table r.qName := by
  simp only [extractLeft] at h
  split at h
  · split at h
    · have he := Option.some.inj h
      subst he
      rfl
    · have he := Option.some.inj h
      subst he
      rfl
  · simp at h

/-- Whenever the right-candidacy branch stores an overhang, its read id
is the table entry for the record name. -/
theorem extractRight_readId (maxExt : Nat) (table : String → Nat) (contigLen : Nat)
    (r : BamRecord) (e : Ext)
    (h : extractRight maxExt table contigLen r = some e) : e.readId = table r.qName := by
  simp only [extractRight] at h
  split at h
  · split at h
    · simp at h
    · split at h
      · simp at h
      · have he := Option.some.inj h
        subst he
        rfl
  · simp at h

/-- The read ids of the freshly extracted left overhangs form a sublist
of the table images of the record names. -/
theorem find_left_ids_sublist (maxExt : Nat) (table : String → Nat) (contigLen : Nat)
    (records : List BamRecord) :
    ((findPossibleExtensions maxExt table contigLen records [] []).1.map Ext.readId).Sublist
      (records.map (fun r => table r.qName)) := by
  induction records with
  | nil => simp [findPossibleExtensions]
  | cons r rs ih =>
    rw [findPossibleExtensions_cons, findPossibleExtensions_seed]
    simp only [List.nil_append, List.map_append, List.map_cons]
    cases hex : extractLeft maxExt table r with
    | none => simpa using ih.cons (table r.qName)
    | some e =>
      have he : e.readId = table r.qName := extractLeft_readId maxExt table r e hex
      simpa [he] using ih.cons₂ (table r.qName)

/-- The read ids of the freshly extracted right overhangs form a sublist
of the table images of the record names. -/
theorem find_right_ids_sublist (maxExt : Nat) (table : String → Nat) (contigLen : Nat)
    (records : List BamRecord) :
    ((findPossibleExtensions maxExt table contigLen records [] []).2.map Ext.readId).Sublist
      (records.map (fun r => table r.qName)) := by
  induction records with
  | nil => simp [findPossibleExtensions]
  | cons r rs ih =>
    rw [findPossibleExtensions_cons, findPossibleExtensions_seed]
    simp only [List.nil_append, List.map_append, List.map_cons]
    cases hex : extractRight maxExt table contigLen r with
    | none => simpa using ih.cons (table r.qName)
    | some e =>
      have he : e.readId = table r.qName := extractRight_readId maxExt table contigLen r e hex
      simpa [he] using ih.cons₂ (table r.qName)

/-- Helper for the amended claim C2: the `size_t` drop threshold agrees
with natural subtraction for realistic overhang lengths. -/
theorem sizetSub2_eq (n : Nat) (h2 : 2 ≤ n) (hw : n < SIZE_T_MOD) :
    sizetSub2 n = n - 2 := by
  unfold sizetSub2 SIZE_T_MOD at *
  omega

/-! ## Claim theorems -/

/-- Claim C10 (confirmed): `find_possible_extensions` only appends to the
two overhang lists passed to it; whatever the lists held before the call
is still there, unchanged and in order, followed by the newly extracted
candidates.  This is the frame property the refinement loop relies on
when it seeds an iteration with the surviving overhangs and lets the
extractor append the freshly re-aligned ones. -/
theorem extractor_appends_preserving_seeds (maxExt : Nat) (table : String → Nat)
    (contigLen : Nat) (records : List BamRecord) (left0 right0 : List Ext) :
    (findPossibleExtensions maxExt table contigLen records left0 right0).1 =
      left0 ++ (findPossibleExtensions maxExt table contigLen records [] []).1 ∧
    (findPossibleExtensions maxExt table contigLen records left0 right0).2 =
      right0 ++ (findPossibleExtensions maxExt table contigLen records [] []).2 := by
  rw [findPossibleExtensions_seed]
  exact ⟨rfl, rfl⟩

/-- Claim C9 (confirmed): an alignment record whose CIGAR begins and ends
with a soft clip can feed BOTH lists in one extractor pass.  At the
concrete record `c9rec` (clips 3 and 5 around a match covering a 4-base
contig) a single pass appends one overhang to the left list and one to
the right list. -/
theorem both_clips_contribute_both_sides :
    findPossibleExtensions MAX_EXT idTable0 4 [c9rec] [] [] =
      ([⟨0, ("ACGTACGTACGT".toList).reverse, 0, false⟩],
       [⟨0, "TACGT".toList, 0, false⟩]) := by
  decide

/-- Claim C3 (code bug, evaluation at the failing input): for the record
`c3rec` (leading clip 5, `beginPos` 2, hence `len = 3`, read of 8 bases)
the code stores the reverse of `seq.substr(0, max_ext_length)` — the
whole 8-base read — instead of the reverse of the 3-base dangling prefix
`"ACG"` required by the claim: the `len <= MAX_EXT` branch passes
`max_ext_length` rather than `len` as the window width. -/
theorem left_overhang_window_at_failing_input :
    (findPossibleExtensions MAX_EXT idTable0 100 [c3rec] [] []).1 =
      [⟨0, ("ACGTACGT".toList).reverse, 0, false⟩] ∧
    ("ACGTACGT".toList).reverse ≠ ("ACG".toList).reverse := by
  exact ⟨by decide, by decide⟩

/-- Claim C5 (counterexample): the extractor does not deduplicate read
ids.  Listing the left-qualifying record `c5rec` twice — as happens when
a SAM file carries secondary or supplementary alignments of one read —
puts read id 7 twice into the left overhang list of one pass, so the
claim that every read id appears at most once per side is false. -/
theorem duplicate_records_duplicate_read_ids :
    ((findPossibleExtensions MAX_EXT c5table 100 [c5rec, c5rec] [] []).1.map Ext.readId)
      = [7, 7] ∧
    ¬ ((findPossibleExtensions MAX_EXT c5table 100 [c5rec, c5rec] [] []).1.map
        Ext.readId).Nodup := by
  exact ⟨by decide, by decide⟩

/-- Claim C5 (amended, theorem): in a single extractor pass each record
contributes at most one overhang per side, carrying the table id of its
own name; hence when the records carry pairwise-distinct read ids, each
side's freshly produced overhang list mentions every read id at most
once.  (With duplicate records for one read, or across refinement
iterations where survivors are concatenated with re-extracted overhangs,
ids can repeat.) -/
theorem distinct_read_ids_yield_nodup_overhang_lists
    (maxExt : Nat) (table : String → Nat) (contigLen : Nat) (records : List BamRecord)
    (h : (records.map (fun r => table r.qName)).Nodup) :
    ((findPossibleExtensions maxExt table contigLen records [] []).1.map Ext.readId).Nodup ∧
    ((findPossibleExtensions maxExt table contigLen records [] []).2.map Ext.readId).Nodup :=
  ⟨h.sublist (find_left_ids_sublist maxExt table contigLen records),
   h.sublist (find_right_ids_sublist maxExt table contigLen records)⟩

/-- Witness for the amended claim C5 at two records with distinct names
mapped to distinct ids by `String.length`. -/
theorem distinct_read_ids_yield_nodup_overhang_lists_witness :
    (([c5recA, c5recB].map (fun r => String.length r.qName)).Nodup) ∧
    (((findPossibleExtensions MAX_EXT String.length 100 [c5recA, c5recB] [] []).1.map
        Ext.readId).Nodup ∧
     ((findPossibleExtensions MAX_EXT String.length 100 [c5recA, c5recB] [] []).2.map
        Ext.readId).Nodup) :=
  ⟨by decide,
   distinct_read_ids_yield_nodup_overhang_lists MAX_EXT String.length 100
     [c5recA, c5recB] (by decide)⟩

/-- Claim C6 (confirmed): the extractor's margin tests are asymmetric at
the boundary.  A record with `beginPos` exactly `OUTER_MARGIN` is never a
left candidate (the test is a strict `beginPos < OUTER_MARGIN`), while a
mapped, trailing-soft-clipped record whose right margin is exactly
`OUTER_MARGIN` with positive dangling length is still appended as a right
candidate (only `margin > OUTER_MARGIN` is skipped). -/
theorem margin_boundary_asymmetry (maxExt : Nat) (table : String → Nat)
    (contigLen : Nat) (r : BamRecord) :
    (r.beginPos = OUTER_MARGIN → extractLeft maxExt table r = none) ∧
    (r.flag &&& 4 = 0 → (r.cigar.getLastD ⟨'*', 0⟩).op = 'S' →
      marginOf contigLen r = (OUTER_MARGIN : Int) →
      0 < ((r.cigar.getLastD ⟨'*', 0⟩).cnt : Int) - marginOf contigLen r →
      (extractRight maxExt table contigLen r).isSome = true) := by
  constructor
  · intro hb
    simp only [extractLeft, hb]
    simp [OUTER_MARGIN]
  · intro hflag hop hmargin hlen
    rw [hmargin] at hlen
    simp only [extractRight, hop, hflag, hmargin]
    have h1 : ¬ ((OUTER_MARGIN : Int) > (OUTER_MARGIN : Int)) := by omega
    have h2 : ¬ (((r.cigar.getLastD ⟨'*', 0⟩).cnt : Int) - (OUTER_MARGIN : Int) ≤ 0) := by
      omega
    simp only [List.getLastD_eq_getLast?] at hlen h2
    simp [h1, h2]

/-- Witness for claim C6: `c6leftRec` has `beginPos = 15` and is not a
left candidate; `c6rightRec` has right margin exactly 15 against a
25-base contig and is a right candidate. -/
theorem margin_boundary_asymmetry_witness :
    (c6leftRec.beginPos = OUTER_MARGIN ∧ extractLeft MAX_EXT idTable0 c6leftRec = none) ∧
    (marginOf 25 c6rightRec = (OUTER_MARGIN : Int) ∧
     (extractRight MAX_EXT idTable0 25 c6rightRec).isSome = true) :=
  ⟨⟨by decide,
    (margin_boundary_asymmetry MAX_EXT idTable0 25 c6leftRec).1 (by decide)⟩,
   ⟨by decide,
    (margin_boundary_asymmetry MAX_EXT idTable0 25 c6rightRec).2 rfl (by decide)
      (by decide) (by decide)⟩⟩

/-- Claim C1 (confirmed): every base of the string returned by the
realigning walker was confirmed by both gates of its step.  If
`walkAux` returns an output, then for every emitted index `i` the step-
`i` state (obtained by iterating the committed realignment step) had
current-histogram coverage at least `MIN_COVERAGE` AND look-ahead
coverage at least `0.6 * MIN_COVERAGE` (as the exact integer inequality
`6 * MIN_COVERAGE <= 10 * coverage`), and the emitted base is that
state's tentative output base.  Contrapositively, at the first step
whose look-ahead coverage falls below the threshold the walker stops
without appending the tentative base. -/
theorem walker_lookahead_gate_confirms_every_base (fuel : Nat) (exts : List Ext)
    (out : List Char) (final : List Ext)
    (h : walkAux fuel exts = some (out, final)) :
    ∀ i, i < out.length →
      MIN_COVERAGE ≤ (curBases (stepIter exts i)).coverage ∧
      6 * MIN_COVERAGE ≤ 10 * (nextBases (stepIter exts i)).coverage ∧
      out.getD i 'N' = obOf (stepIter exts i) := by
  induction fuel generalizing exts out final with
  | zero => simp [walkAux] at h
  | succ f ih =>
    rw [walkAux] at h
    by_cases h1 : MIN_COVERAGE ≤ (curBases exts).coverage
    · rw [if_pos h1] at h
      by_cases h2 : 10 * (nextBases exts).coverage < 6 * MIN_COVERAGE
      · rw [if_pos h2] at h
        have hout : ([] : List Char) = out := congrArg Prod.fst (Option.some.inj h)
        intro i hi
        rw [← hout] at hi
        simp at hi
      · rw [if_neg h2] at h
        cases hrec : walkAux f (stepOnce exts) with
        | none =>
          rw [hrec] at h
          exact absurd h (by simp)
        | some p =>
          obtain ⟨rest, fin2⟩ := p
          rw [hrec] at h
          have hout : obOf exts :: rest = out := congrArg Prod.fst (Option.some.inj h)
          intro i hi
          cases i with
          | zero =>
            simp only [stepIter]
            refine ⟨h1, by omega, ?_⟩
            rw [← hout]
            rfl
          | succ j =>
            have hj : j < rest.length := by
              rw [← hout] at hi
              simpa using Nat.lt_of_succ_lt_succ hi
            rw [← hout]
            simp only [stepIter, List.getD_cons_succ]
            exact ih (stepOnce exts) rest fin2 hrec j hj
    · rw [if_neg h1] at h
      have hout : ([] : List Char) = out := congrArg Prod.fst (Option.some.inj h)
      intro i hi
      rw [← hout] at hi
      simp at hi

/-- Witness for claim C1: on five `"ACG"` overhangs the walker emits
`"AC"`, and the step-0 gates are both satisfied with `A` the emitted
base. -/
theorem walker_lookahead_gate_confirms_every_base_witness :
    walkAux 4 c1exts = some (['A', 'C'], c1fin) ∧
    (MIN_COVERAGE ≤ (curBases (stepIter c1exts 0)).coverage ∧
     6 * MIN_COVERAGE ≤ 10 * (nextBases (stepIter c1exts 0)).coverage ∧
     ['A', 'C'].getD 0 'N' = obOf (stepIter c1exts 0)) :=
  ⟨by decide,
   walker_lookahead_gate_confirms_every_base 4 c1exts ['A', 'C'] c1fin (by decide) 0
     (by decide)⟩

/-- Claim C2 (counterexample): a walker step whose gates both pass (the
concrete list `c2exts`: current coverage 6, look-ahead coverage 5) leaves
the `"TAG"` overhang NOT dropped with cursor 2, although its sequence
has length 3, so a live cursor exceeds `len(seq) - 2 = 1`: the insertion
branch advances the cursor by two from `len - 3`.  This refutes the
claimed invariant that a live cursor never exceeds `len(seq) - 2`. -/
theorem walker_cursor_can_exceed_len_minus_two :
    MIN_COVERAGE ≤ (curBases c2exts).coverage ∧
    6 * MIN_COVERAGE ≤ 10 * (nextBases c2exts).coverage ∧
    (stepIter c2exts 1).getD 5 ⟨0, [], 0, true⟩ = ⟨5, "TAG".toList, 2, false⟩ ∧
    ("TAG".toList).length - 2 < 2 := by
  exact ⟨by decide, by decide, by decide, by decide⟩

/-- Claim C2 (amended, theorem): for an overhang with at least two bases
(and realistic length), the per-overhang realignment step drops any live
overhang whose cursor has reached `len(seq) - 2`, and any overhang still
live after the step has its cursor at most `len(seq) - 1` (one more than
the claimed bound: the insertion branch can advance a live cursor from
`len - 3` to `len - 1`). -/
theorem realign_step_drop_guard_and_cursor_bound (outputBase nextMv : Char) (e : Ext)
    (h2 : 2 ≤ e.seq.length) (hw : e.seq.length < SIZE_T_MOD) (hl : e.dropped = false) :
    (e.seq.length - 2 ≤ e.pos → (realignExt outputBase nextMv e).dropped = true) ∧
    ((realignExt outputBase nextMv e).dropped = false →
      (realignExt outputBase nextMv e).pos ≤ e.seq.length - 1) := by
  have hg : sizetSub2 e.seq.length = e.seq.length - 2 := sizetSub2_eq _ h2 hw
  by_cases hguard : e.seq.length - 2 ≤ e.pos
  · have hval : realignExt outputBase nextMv e = { e with dropped := true } := by
      unfold realignExt
      rw [hl, hg]
      rw [if_neg (by simp), if_pos hguard]
    rw [hval]
    constructor
    · intro _
      rfl
    · intro hlive
      exact absurd hlive (by simp)
  · have hbound : (realignExt outputBase nextMv e).pos ≤ e.pos + 2 := by
      unfold realignExt
      rw [hl, hg]
      rw [if_neg (by simp), if_neg hguard]
      dsimp only
      split_ifs <;> simp
    have hlt : e.pos < e.seq.length - 2 := Nat.lt_of_not_le hguard
    constructor
    · intro hc
      exact absurd hc hguard
    · intro _
      omega

/-- Witness for the amended claim C2: the live two-base overhang `c2we`
at cursor 0 satisfies `len - 2 <= pos` and is dropped by the step. -/
theorem realign_step_drop_guard_and_cursor_bound_witness :
    (2 ≤ c2we.seq.length ∧ c2we.seq.length < SIZE_T_MOD ∧ c2we.dropped = false) ∧
    ((c2we.seq.length - 2 ≤ c2we.pos → (realignExt 'A' 'G' c2we).dropped = true) ∧
     ((realignExt 'A' 'G' c2we).dropped = false →
       (realignExt 'A' 'G' c2we).pos ≤ c2we.seq.length - 1)) :=
  ⟨⟨by decide, by norm_num [c2we, SIZE_T_MOD], by decide⟩,
   realign_step_drop_guard_and_cursor_bound 'A' 'G' c2we (by decide)
     (by norm_num [c2we, SIZE_T_MOD]) (by decide)⟩

/-- Helper for claim C7: the histogram is invariant under permutation of
the overhang list, since each bin counts matching overhangs. -/
theorem countBases_perm (eligible : Char → Bool) (offset : Nat) {l1 l2 : List Ext}
    (h : l1.Perm l2) : countBases l1 eligible offset = countBases l2 eligible offset := by
  simp [countBases, h.countP_eq]

/-- Claim C7 (confirmed): the walker's emitted string is invariant under
any permutation of the overhang list.  Both histograms are permutation-
invariant, the argmax tie-break is deterministic, and the per-overhang
realignment updates each overhang independently, so permuted inputs walk
in lockstep (the returned final lists are the correspondingly permuted
states). -/
theorem walker_emission_permutation_invariant (fuel : Nat) (l1 l2 : List Ext)
    (h : l1.Perm l2) :
    (walkAux fuel l1).map Prod.fst = (walkAux fuel l2).map Prod.fst := by
  induction fuel generalizing l1 l2 with
  | zero => rfl
  | succ f ih =>
    have hcur : curBases l1 = curBases l2 := countBases_perm _ _ h
    have hob : obOf l1 = obOf l2 := by
      unfold obOf
      rw [hcur]
    have hnext : nextBases l1 = nextBases l2 := by
      unfold nextBases
      rw [hob]
      exact countBases_perm _ _ h
    have hnm : nmOf l1 = nmOf l2 := by
      unfold nmOf
      rw [hnext]
    have hstep : (stepOnce l1).Perm (stepOnce l2) := by
      unfold stepOnce
      rw [hob, hnm]
      exact h.map _
    rw [walkAux, walkAux, hcur, hnext]
    by_cases h1 : MIN_COVERAGE ≤ (curBases l2).coverage
    · rw [if_pos h1, if_pos h1]
      by_cases hg : 10 * (nextBases l2).coverage < 6 * MIN_COVERAGE
      · rw [if_pos hg, if_pos hg]
        simp
      · rw [if_neg hg, if_neg hg]
        have hrec := ih (stepOnce l1) (stepOnce l2) hstep
        cases e1 : walkAux f (stepOnce l1) with
        | none =>
          cases e2 : walkAux f (stepOnce l2) with
          | none =>
            rfl
          | some q =>
            rw [e1, e2] at hrec
            simp at hrec
        | some p =>
          cases e2 : walkAux f (stepOnce l2) with
          | none =>
            rw [e1, e2] at hrec
            simp at hrec
          | some q =>
            obtain ⟨r1, f1⟩ := p
            obtain ⟨r2, f2⟩ := q
            rw [e1, e2] at hrec
            have hr : r1 = r2 := by simpa using hrec
            simp [hob, hr]
    · rw [if_neg h1, if_neg h1]
      simp

/-- Witness for claim C7: moving the `"TAG"` overhang from the back of
the list to the front leaves the emitted string unchanged. -/
theorem walker_emission_permutation_invariant_witness :
    c7l1.Perm c7l2 ∧
    (walkAux 4 c7l1).map Prod.fst = (walkAux 4 c7l2).map Prod.fst :=
  ⟨by decide, walker_emission_permutation_invariant 4 c7l1 c7l2 (by decide)⟩

/-- Oracle for the claim C8 witness: the aligner is never reached, so it
may return nothing. -/
def c8oracleEmpty : Nat → List BamRecord := fun _ => []

/-- Claim C8 (confirmed): if after the first walker pass on both sides no
overhang in either list is dropped, the refinement loop returns the
extended contig from that same iteration with zero invocations of the
external aligner: the `will_realign` check precedes the `index`/`align`
calls, so the loop breaks before ever reaching them. -/
theorem no_drops_returns_without_aligner (walkFuel loopFuel : Nat)
    (oracle : Nat → List BamRecord) (table : String → Nat)
    (alnRecords : List BamRecord) (contig : List Char)
    (lout rout : List Char) (l1 r1 : List Ext)
    (hl : walkAux walkFuel
      (findPossibleExtensions MAX_EXT table contig.length alnRecords [] []).1 =
      some (lout, l1))
    (hr : walkAux walkFuel
      (findPossibleExtensions MAX_EXT table contig.length alnRecords [] []).2 =
      some (rout, r1))
    (hnl : ∀ e ∈ l1, e.dropped = false)
    (hnr : ∀ e ∈ r1, e.dropped = false) :
    extendContigModel walkFuel (loopFuel + 1) oracle table alnRecords contig =
      some ⟨lout.reverse ++ contig ++ rout, lout.length, rout.length, 0⟩ := by
  have hla : l1.any (fun e => e.dropped) = false :=
    List.any_eq_false.mpr (fun e he => by simp [hnl e he])
  have hra : r1.any (fun e => e.dropped) = false :=
    List.any_eq_false.mpr (fun e he => by simp [hnr e he])
  unfold extendContigModel ecLoop ecIterate
  simp [hl, hr, hla, hra]

/-- Witness for claim C8: with no alignment records at all, both walker
passes return immediately with empty (hence drop-free) lists and the loop
returns the unchanged contig having never called the aligner. -/
theorem no_drops_returns_without_aligner_witness :
    walkAux 1 (findPossibleExtensions MAX_EXT idTable0 c8contig.length [] [] []).1 =
      some ([], []) ∧
    extendContigModel 1 1 c8oracleEmpty idTable0 [] c8contig =
      some ⟨c8contig, 0, 0, 0⟩ :=
  ⟨by decide,
   by
    have h := no_drops_returns_without_aligner 1 0 c8oracleEmpty idTable0 [] c8contig
      [] [] [] [] (by decide) (by decide) (by simp) (by simp)
    simpa using h⟩

/-- Claim C4 (counterexample): the per-side totals of `extend_contig` can
exceed `MAX_EXT = 1000`.  On `c4records` with an oracle that re-maps the
same five reads after every iteration, each of the 334 iterations emits a
3-base left extension; the clamp only stops the side once the total has
already reached 1002, so the returned `total_left_ext` is 1002 > 1000. -/
theorem total_left_ext_exceeds_max_ext :
    (extendContigModel 5 400 c4oracle c4table c4records c4contig).map
      (fun r => r.totalLeft) = some 1002 ∧
    MAX_EXT < 1002 := by
  exact ⟨by decide, by decide⟩

/-- Claim C4 (amended, theorem): what the clamp does guarantee.  Whenever
one refinement iteration hands a successor state to the loop, a side
whose `should_ext` flag is still set has its accumulated total strictly
below `MAX_EXT`; so every walker run for a side starts from a total below
`MAX_EXT`, and the total can only overshoot by the length of that final
run's emission. -/
theorem clamp_bounds_totals_at_iteration_entry (walkFuel : Nat)
    (oracle : Nat → List BamRecord) (table : String → Nat) (s s1 : ECState)
    (h : ecIterate walkFuel oracle table s = some (Sum.inr s1)) :
    (s1.shouldLeft = true → s1.totalLeft < MAX_EXT) ∧
    (s1.shouldRight = true → s1.totalRight < MAX_EXT) := by
  unfold ecIterate at h
  cases hwl : (if s.shouldLeft then walkAux walkFuel s.left else some ([], s.left)) with
  | none =>
    rw [hwl] at h
    simp at h
  | some p =>
    obtain ⟨lext, left1⟩ := p
    rw [hwl] at h
    cases hwr : (if s.shouldRight then walkAux walkFuel s.right else some ([], s.right)) with
    | none =>
      rw [hwr] at h
      simp at h
    | some q =>
      obtain ⟨rext, right1⟩ := q
      rw [hwr] at h
      dsimp only at h
      split at h
      · simp at h
      · split at h
        · simp at h
        · have hs := Sum.inr.inj (Option.some.inj h)
          subst hs
          constructor
          · intro hb
            exact of_decide_eq_true ((Bool.and_eq_true _ _).mp hb).2
          · intro hb
            exact of_decide_eq_true ((Bool.and_eq_true _ _).mp hb).2

/-- Witness for the amended claim C4: from the state `c4wSt` one
iteration produces the successor state `c4wSt1`, whose flags and totals
satisfy the clamp bound. -/
theorem clamp_bounds_totals_at_iteration_entry_witness :
    ecIterate 1 c4oracle c4table c4wSt = some (Sum.inr c4wSt1) ∧
    ((c4wSt1.shouldLeft = true → c4wSt1.totalLeft < MAX_EXT) ∧
     (c4wSt1.shouldRight = true → c4wSt1.totalRight < MAX_EXT)) :=
  ⟨by decide,
   clamp_bounds_totals_at_iteration_entry 1 c4oracle c4table c4wSt c4wSt1 (by decide)⟩

end Scaffolder
